import Mathlib

/-!
Shallow embedding of the ASL HandPose trainer sketch (sketch.js):
feature extraction, distance-weighted kNN classification with
confidence/margin gating, the example store (add / undo / clear / import)
and the prediction smoother.

Modelling conventions:
* JavaScript numbers are modelled as exact rationals.  Transcendental
  library functions (Math.sqrt, Math.cos, Math.sin, Math.atan2, Math.PI)
  are parameters of the embedding, bundled in MathFns; theorems quantify
  over them, and concrete evaluations instantiate them with functions
  that agree with the real ones at every point actually evaluated.
* JavaScript objects are association lists in key-insertion order;
  assignment updates an existing key in place and appends a fresh key.
* A property read on a missing key yields none (undefined); the places
  where the sketch would throw a TypeError are modelled with Except.
-/

/- Rational arithmetic must evaluate inside decide; these Batteries
definitions are irreducible only to keep simp from unfolding them. -/
attribute [local semireducible] Rat.ofScientific Rat.mul Rat.inv Rat.add Rat.sub

/-- Labels of the sketch: the 26 letters, built as in the source from the
string of the alphabet. -/
def LABELS : List String :=
  ["A","B","C","D","E","F","G","H","I","J","K","L","M",
   "N","O","P","Q","R","S","T","U","V","W","X","Y","Z"]

/-- Label of the NONE / REJECT class. -/
def NONE_LABEL : String := "NONE"

/-- Canonical label order: letters A..Z followed by NONE. -/
def ALL_LABELS : List String := LABELS ++ [NONE_LABEL]

/-- Number of neighbours used by the classifier. -/
def K : ℕ := 7

/-- Confidence gate threshold. -/
def MIN_CONF : ℚ := 0.62

/-- Margin gate threshold. -/
def MIN_MARGIN : ℚ := 0.12

/-- Epsilon guarding the inverse-distance weights. -/
def EPS : ℚ := 0.000001

/-- Debounce window for non-silent adds, in milliseconds. -/
def ADD_DEBOUNCE_MS : ℚ := 180

/-- Capacity of the smoothing window. -/
def SMOOTH_N : ℕ := 12

/-- Occurrence count needed in the window for a stable prediction. -/
def STABLE_MIN : ℕ := 9

/-- JSON-style values, as delivered by JSON.parse or by the p5 file input. -/
inductive JSVal where
  | null : JSVal
  | bool : Bool → JSVal
  | num : ℚ → JSVal
  | str : String → JSVal
  | arr : List JSVal → JSVal
  | obj : List (String × JSVal) → JSVal
deriving Repr

/-- Truthiness of a JavaScript value: null, false, 0 and the empty string
are falsy, arrays and objects (empty included) are truthy. -/
def jsTruthy : JSVal → Bool
  | .null => false
  | .bool b => b
  | .num q => q != 0
  | .str s => s != ""
  | .arr _ => true
  | .obj _ => true

/-- Truthiness of a possibly-undefined value (undefined is falsy). -/
def jsTruthyOpt : Option JSVal → Bool
  | none => false
  | some v => jsTruthy v

/-- Property read: lookup on an object, undefined on everything else. -/
def jsGet : JSVal → String → Option JSVal
  | .obj kvs, k => kvs.lookup k
  | _, _ => none

/-- Lookup in an insertion-ordered association list. -/
def objGet {α : Type} (e : List (String × α)) (k : String) : Option α :=
  e.lookup k

/-- Assignment on an insertion-ordered association list: an existing key
is updated in place, a fresh key is appended at the end. -/
def objSet {α : Type} (e : List (String × α)) (k : String) (v : α) :
    List (String × α) :=
  match e with
  | [] => [(k, v)]
  | (k0, v0) :: rest =>
    if k0 = k then (k0, v) :: rest else (k0, v0) :: objSet rest k v

mutual

/-- Key of a JavaScript property access, as coerced from a value:
strings are used verbatim and every other shape coerces to a string that
is never one of the 27 labels. -/
def jsPropKey : JSVal → String
  | .str s => s
  | .bool b => if b then "true" else "false"
  | .null => "null"
  | .num q => "number:" ++ toString q.num ++ "/" ++ toString q.den
  | .arr vs => String.intercalate "," (jsPropKeyList vs)
  | .obj _ => "[object Object]"

/-- Keys of a list of values, elementwise. -/
def jsPropKeyList : List JSVal → List String
  | [] => []
  | v :: vs => jsPropKey v :: jsPropKeyList vs

end

/-- Bundle of the Math library functions the sketch calls; the embedding
is parametric in them. -/
structure MathFns where
  msqrt : ℚ → ℚ
  mcos : ℚ → ℚ
  msin : ℚ → ℚ
  matan2 : ℚ → ℚ → ℚ
  mpi : ℚ

/-- Fuel-driven bisection step for the integer square root. -/
def sqrtAux : ℕ → ℕ → ℕ → ℕ → ℕ
  | 0, _, lo, _ => lo
  | fuel + 1, n, lo, hi =>
    if hi ≤ lo then lo
    else
      let mid := (lo + hi + 1) / 2
      if mid * mid ≤ n then sqrtAux fuel n mid hi
      else sqrtAux fuel n lo (mid - 1)

/-- Integer square root by bisection; the fuel n + 1 always suffices. -/
def natSqrt (n : ℕ) : ℕ := sqrtAux (n + 1) n 0 n

/-- Exact rational square root on perfect squares (and 0 elsewhere); used
only to instantiate MathFns.msqrt at concrete inputs, all of which are
perfect squares, where it agrees with the real square root. -/
def rsqrt (q : ℚ) : ℚ :=
  if q ≤ 0 then 0
  else
    let n := natSqrt q.num.toNat
    let d := natSqrt q.den
    if (n * n : ℤ) = q.num ∧ d * d = q.den then (n : ℚ) / (d : ℚ) else 0

/-- Concrete MathFns instance used by witnesses and counterexamples. -/
def refFns : MathFns :=
  { msqrt := rsqrt
    mcos := fun _ => 1
    msin := fun _ => 0
    matan2 := fun _ _ => 0
    mpi := 0 }

/-- Landmark as delivered by the pose provider. -/
structure Landmark where
  x : ℚ
  y : ℚ
  z : Option ℚ
deriving Repr

/-- Raw hand: a list of keypoints. -/
structure Hand where
  keypoints : List Landmark
deriving Repr

/-- Triple list of a hand's landmarks, the source's getLandmarks21. -/
def getLandmarks21 (hand : Hand) : List (ℚ × ℚ × ℚ) :=
  hand.keypoints.map fun k => (k.x, k.y, k.z.getD 0)

/-- Total indexing into the landmark triple list (all indices used by the
source are in range once the 21-keypoint check has passed). -/
def lmAt (lm : List (ℚ × ℚ × ℚ)) (i : ℕ) : ℚ × ℚ × ℚ :=
  (lm.get? i).getD (0, 0, 0)

/-- Feature extraction of the source's getHandFeatures: wrist-translated,
scale-divided, rotated x,y pairs of the first hand's 21 landmarks;
none when there is no hand or the keypoint count is not 21. -/
def getHandFeatures (M : MathFns) (hands : List Hand) : Option (List ℚ) :=
  match hands with
  | [] => none
  | hand :: _ =>
    if hand.keypoints.length = 21 then
      let lm := getLandmarks21 hand
      let wrist := lmAt lm 0
      let midMcp := lmAt lm 9
      let wx := wrist.1
      let wy := wrist.2.1
      let dx := midMcp.1 - wx
      let dy := midMcp.2.1 - wy
      let scale := if M.msqrt (dx * dx + dy * dy) = 0 then 1
                   else M.msqrt (dx * dx + dy * dy)
      let ang := M.matan2 dy dx
      let rot := -(M.mpi / 2) - ang
      let cosR := M.mcos rot
      let sinR := M.msin rot
      some ((List.range 21).flatMap fun i =>
        let x := ((lmAt lm i).1 - wx) / scale
        let y := ((lmAt lm i).2.1 - wy) / scale
        [x * cosR - y * sinR, x * sinR + y * cosR])
    else none

/-- Euclidean distance of the source's l2Distance: the loop runs over the
indices of the first vector, as in the source. -/
def l2Distance (M : MathFns) (a b : List ℚ) : ℚ :=
  M.msqrt (((List.range a.length).map fun i =>
    let d := a.getD i 0 - b.getD i 0
    d * d).sum)

/-- Neighbour entry pushed by the classifier's scan. -/
structure Neighbor where
  label : String
  d : ℚ
deriving Repr, DecidableEq

/-- Neighbour list of classifyKNN: labels in canonical order, each label's
stored vectors in insertion order. -/
def neighborsOf (M : MathFns) (ex : String → List (List ℚ)) (q : List ℚ) :
    List Neighbor :=
  ALL_LABELS.flatMap fun label =>
    (ex label).map fun v => { label := label, d := l2Distance M q v }

/-- Stable insertion into a list ascending in the d field: the new
element goes before the first strictly-greater entry and after every
earlier equal one. -/
def insertNb (x : Neighbor) : List Neighbor → List Neighbor
  | [] => [x]
  | y :: ys => if x.d ≤ y.d then x :: y :: ys else y :: insertNb x ys

/-- Stable ascending sort by distance.  ECMAScript's Array sort with the
comparator (a, b) => a.d - b.d is a stable ascending sort, and a stable
sort's output is unique, so this insertion sort produces exactly the
array the source computes. -/
def sortNb (l : List Neighbor) : List Neighbor :=
  l.foldr insertNb []

/-- Neighbours sorted ascending by distance. -/
def sortedNeighborsOf (M : MathFns) (ex : String → List (List ℚ))
    (q : List ℚ) : List Neighbor :=
  sortNb (neighborsOf M ex q)

/-- Nearest min(K, n) neighbours. -/
def topKOf (M : MathFns) (ex : String → List (List ℚ)) (q : List ℚ) :
    List Neighbor :=
  (sortedNeighborsOf M ex q).take (min K (neighborsOf M ex q).length)

/-- Score-map update of one neighbour, the source's
scores[label] = (scores[label] || 0) + w. -/
def scoreUpd (sc : List (String × ℚ)) (l : String) (w : ℚ) :
    List (String × ℚ) :=
  objSet sc l ((objGet sc l).getD 0 + w)

/-- Accumulated per-label scores of the top-k neighbours, keys in
first-occurrence order. -/
def scoresOf (M : MathFns) (ex : String → List (List ℚ)) (q : List ℚ) :
    List (String × ℚ) :=
  (topKOf M ex q).foldl (fun sc nb => scoreUpd sc nb.label (1 / (nb.d + EPS))) []

/-- Comparison against a may-be-unset score; none models the -Infinity
initial value, which every finite score exceeds. -/
def gtO (s : ℚ) : Option ℚ → Bool
  | none => true
  | some b => decide (b < s)

/-- Loop body of the source's two-maximum scan over the score map. -/
def scanStep (acc : Option String × Option ℚ × Option String × Option ℚ)
    (e : String × ℚ) : Option String × Option ℚ × Option String × Option ℚ :=
  if gtO e.2 acc.2.1 then (some e.1, some e.2, acc.1, acc.2.1)
  else if gtO e.2 acc.2.2.2 then (acc.1, acc.2.1, some e.1, some e.2)
  else acc

/-- Best and second scan over the score map in key order, the source's
two-maximum loop; none models the null / -Infinity initial values. -/
def bestScan (sc : List (String × ℚ)) :
    Option String × Option ℚ × Option String × Option ℚ :=
  sc.foldl scanStep (none, none, none, none)

/-- Raw best label determined by a score map. -/
def bestLabelFromScores (sc : List (String × ℚ)) : Option String :=
  (bestScan sc).1

/-- Raw best score determined by a score map. -/
def bestScoreFromScores (sc : List (String × ℚ)) : Option ℚ :=
  (bestScan sc).2.1

/-- Raw second label determined by a score map. -/
def secondLabelFromScores (sc : List (String × ℚ)) : Option String :=
  (bestScan sc).2.2.1

/-- Second score after the isFinite fix: 0 when never set. -/
def secondScoreFromScores (sc : List (String × ℚ)) : ℚ :=
  ((bestScan sc).2.2.2).getD 0

/-- Total score across all labels. -/
def totalFromScores (sc : List (String × ℚ)) : ℚ :=
  (sc.map fun e => e.2).sum

/-- Confidence determined by a score map. -/
def confFromScores (sc : List (String × ℚ)) : ℚ :=
  if 0 < totalFromScores sc then (bestScoreFromScores sc).getD 0 / totalFromScores sc
  else 0

/-- Second confidence determined by a score map. -/
def secondConfFromScores (sc : List (String × ℚ)) : ℚ :=
  if 0 < totalFromScores sc then secondScoreFromScores sc / totalFromScores sc
  else 0

/-- Margin determined by a score map. -/
def marginFromScores (sc : List (String × ℚ)) : ℚ :=
  confFromScores sc - secondConfFromScores sc

/-- Raw best label of a classification. -/
def bestLabelOf (M : MathFns) (ex : String → List (List ℚ)) (q : List ℚ) :
    Option String :=
  bestLabelFromScores (scoresOf M ex q)

/-- Raw second label of a classification. -/
def secondLabelOf (M : MathFns) (ex : String → List (List ℚ)) (q : List ℚ) :
    Option String :=
  secondLabelFromScores (scoresOf M ex q)

/-- Confidence of a classification. -/
def confOf (M : MathFns) (ex : String → List (List ℚ)) (q : List ℚ) : ℚ :=
  confFromScores (scoresOf M ex q)

/-- Margin of a classification. -/
def marginOf (M : MathFns) (ex : String → List (List ℚ)) (q : List ℚ) : ℚ :=
  marginFromScores (scoresOf M ex q)

/-- Classification result record returned by classifyKNN: fields label,
conf, best, second, scores, exactly those of the source's literals. -/
structure KNNResult where
  label : Option String
  conf : ℚ
  best : Option String
  second : Option String
  scores : List (String × ℚ)
deriving Repr, DecidableEq

/-- Distance-weighted kNN classification with confidence and margin
gating, the source's classifyKNN; none when no example is stored. -/
def classifyKNN (M : MathFns) (ex : String → List (List ℚ)) (q : List ℚ) :
    Option KNNResult :=
  let neighbors := neighborsOf M ex q
  if neighbors.length = 0 then none
  else if bestLabelOf M ex q = some NONE_LABEL then
    some { label := some NONE_LABEL, conf := confOf M ex q
           best := bestLabelOf M ex q, second := secondLabelOf M ex q
           scores := scoresOf M ex q }
  else if confOf M ex q < MIN_CONF ∨ marginOf M ex q < MIN_MARGIN then
    some { label := some NONE_LABEL, conf := confOf M ex q
           best := bestLabelOf M ex q, second := secondLabelOf M ex q
           scores := scoresOf M ex q }
  else
    some { label := bestLabelOf M ex q, conf := confOf M ex q
           best := bestLabelOf M ex q, second := secondLabelOf M ex q
           scores := scoresOf M ex q }

/-- Total number of stored examples, the source's totalExamples, for the
classifier's view of the store. -/
def totalExamples (ex : String → List (List ℚ)) : ℕ :=
  ALL_LABELS.foldl (fun sum l => sum + (ex l).length) 0

/-- Fault raised where the sketch would throw a TypeError, such as
reading .length of an undefined store entry. -/
structure JsFault where
  message : String
deriving Repr, DecidableEq

/-- Mutable globals of the sketch that the store operations touch; the
p5 canvas and localStorage stay outside the model. -/
structure SketchState where
  examples : List (String × List JSVal)
  addHistory : List JSVal
  lastAddAt : ℚ
  smoothQueue : List String
  lastLabel : Option String
  lastConf : ℚ
  recordLabel : Option String
  recordMode : Bool
  hands : List Hand
  statusMsg : String
deriving Repr

/-- Empty per-label store, the module-level initialisation
ALL_LABELS.forEach(l => examples[l] = []). -/
def initExamples : List (String × List JSVal) :=
  ALL_LABELS.foldl (fun e l => objSet e l []) []

/-- State at the start of the sketch. -/
def initState : SketchState :=
  { examples := initExamples
    addHistory := []
    lastAddAt := 0
    smoothQueue := []
    lastLabel := none
    lastConf := 0
    recordLabel := none
    recordMode := false
    hands := []
    statusMsg := "loading HandPose..." }

/-- Feature vector encoded as the JSON value stored in the dataset. -/
def featsToJS (v : List ℚ) : JSVal :=
  .arr (v.map fun q => .num q)

/-- Total number of stored examples read off the store object, the
source's totalExamples as used by the status messages. -/
def totalExamplesStore (e : List (String × List JSVal)) : ℕ :=
  ALL_LABELS.foldl (fun sum l => sum + ((objGet e l).getD []).length) 0

/-- Status message of a successful add. -/
def addedMsg (label : String) (n : ℕ) : String :=
  "Added example for " ++ label ++ " (now " ++ toString n ++ ") — saved"

/-- Operation addExample of the source: debounce gate for non-silent
calls, timestamp update, feature availability check, then push to the
label's list and to the history.  The call time now stands for millis();
persistence to localStorage is outside the modelled state. -/
def addExample (M : MathFns) (now : ℚ) (label : String) (silent : Bool)
    (s : SketchState) : Except JsFault (Bool × SketchState) :=
  if ¬silent ∧ now - s.lastAddAt < ADD_DEBOUNCE_MS then .ok (false, s)
  else
    let s0 := { s with lastAddAt := now }
    match getHandFeatures M s.hands with
    | none =>
      .ok (false, if silent then s0 else
        { s0 with statusMsg :=
            "No hand detected — move closer, better light, open palm first" })
    | some feats =>
      match objGet s0.examples label with
      | none => .error { message := "TypeError: examples[label] is undefined" }
      | some arr =>
        let e1 := objSet s0.examples label (arr ++ [featsToJS feats])
        let s1 := { s0 with examples := e1
                            addHistory := s0.addHistory ++ [.str label] }
        .ok (true, if silent then s1 else
          { s1 with statusMsg := addedMsg label (arr.length + 1) })

/-- Operation undoLast of the source: pops the most recent history entry
and the last example of that label's list; faults where the sketch would
throw on examples[label] being undefined. -/
def undoLast (s : SketchState) : Except JsFault SketchState :=
  match s.addHistory.getLast? with
  | none => .ok { s with statusMsg := "Nothing to undo" }
  | some labelVal =>
    let label := jsPropKey labelVal
    let s0 := { s with addHistory := s.addHistory.dropLast }
    match objGet s0.examples label with
    | none => .error { message := "TypeError: examples[label] is undefined" }
    | some arr =>
      if arr.length > 0 then
        .ok { s0 with examples := objSet s0.examples label arr.dropLast
                      statusMsg := "Undid last add: " ++ label ++ " — saved" }
      else
        .ok { s0 with statusMsg := "Undo did nothing (dataset already empty)" }

/-- Operation clearAll of the source: every label list emptied, history
cleared, smoothing and record state reset, saved snapshot removed. -/
def clearAll (s : SketchState) : SketchState :=
  { s with
    examples := ALL_LABELS.foldl (fun e l => objSet e l []) s.examples
    addHistory := []
    smoothQueue := []
    lastLabel := none
    lastConf := 0
    recordLabel := none
    recordMode := false
    statusMsg := "Cleared dataset + deleted saved data" }

/-- Host browser functions the import path calls; the embedding is
parametric in them: JSON.parse, atob and decodeURIComponent, each none
where the browser function would throw. -/
structure HostFns where
  jparse : String → Option JSVal
  atobF : String → Option String
  decURI : String → Option String

/-- Substring test used for meta.includes(";base64"). -/
def containsSub (s pat : String) : Bool :=
  (s.splitOn pat).length ≥ 2

/-- Data field of a p5 file object: a structured value or undefined. -/
def FileData := Option JSVal

/-- Robust JSON extraction of the source's parseMaybeJSON: pass through a
structured object, parse a plain JSON string, or unwrap a data URL in
base64 or percent encoding; every failure is an Error message. -/
def parseMaybeJSON (H : HostFns) (data : FileData) : Except String JSVal :=
  match data with
  | some (.obj kvs) => .ok (.obj kvs)
  | some (.arr vs) => .ok (.arr vs)
  | some (.str s0) =>
    let s := s0.trim
    if s.startsWith "data:" then
      if s.contains ',' then
        let meta := s.takeWhile fun c => c ≠ ','
        let b64 := s.drop (meta.length + 1)
        if containsSub meta ";base64" then
          match H.atobF b64 with
          | none => .error "InvalidCharacterError"
          | some txt =>
            match H.jparse txt with
            | none => .error "invalid JSON"
            | some v => .ok v
        else
          match H.decURI b64 with
          | none => .error "URIError"
          | some txt =>
            match H.jparse txt with
            | none => .error "invalid JSON"
            | some v => .ok v
      else .error "Malformed data URL"
    else
      match H.jparse s with
      | none => .error "invalid JSON"
      | some v => .ok v
  | _ => .error "File data was empty or unreadable"

/-- Example array taken for one label from an import payload: the array
if present and well-formed, else empty. -/
def importedArr (payload : JSVal) (l : String) : List JSVal :=
  match jsGet payload "examples" with
  | some (.obj kvs) =>
    match kvs.lookup l with
    | some (.arr a) => a
    | _ => []
  | _ => []

/-- History taken from an import payload: the raw array if it is an
array, else empty. -/
def importedHistory (payload : JSVal) : List JSVal :=
  match jsGet payload "addHistory" with
  | some (.arr a) => a
  | _ => []

/-- Success condition of the import branch: the payload parsed and both
the payload and its examples field are truthy. -/
def importAccepts (H : HostFns) (data : FileData) : Bool :=
  match parseMaybeJSON H data with
  | .error _ => false
  | .ok payload => jsTruthy payload && jsTruthyOpt (jsGet payload "examples")

/-- Operation handleImport of the source: on any parse or structural
failure only the status message changes; on success every canonical
label's list and the history are replaced from the payload and the
smoothing and record state are reset. -/
def handleImport (H : HostFns) (file : Option FileData) (s : SketchState) :
    SketchState :=
  match file with
  | none => { s with statusMsg := "Import cancelled" }
  | some data =>
    match parseMaybeJSON H data with
    | .error msg => { s with statusMsg := "Import failed — " ++ msg }
    | .ok payload =>
      if jsTruthy payload && jsTruthyOpt (jsGet payload "examples") then
        let e1 := ALL_LABELS.foldl
          (fun e l => objSet e l (importedArr payload l)) s.examples
        { s with
          examples := e1
          addHistory := importedHistory payload
          smoothQueue := []
          lastLabel := none
          lastConf := 0
          recordLabel := none
          recordMode := false
          statusMsg := "Imported (" ++ toString (totalExamplesStore e1) ++ " examples)" }
      else { s with statusMsg := "Import failed — Missing examples in JSON" }

/-- Smoothed prediction record. -/
structure SmoothedResult where
  label : Option String
  conf : ℚ
  stable : Bool
deriving Repr, DecidableEq

/-- Count-map update for one window entry, the source's
counts[l] = (counts[l] || 0) + 1. -/
def countUpd (counts : List (String × ℕ)) (l : String) : List (String × ℕ) :=
  objSet counts l ((objGet counts l).getD 0 + 1)

/-- Occurrence-count map of the smoothing window, keys in
first-occurrence order. -/
def buildCounts (queue : List String) : List (String × ℕ) :=
  queue.foldl countUpd []

/-- Loop body of the mode scan of getSmoothedLabel. -/
def countScanStep (acc : Option String × ℕ) (e : String × ℕ) :
    Option String × ℕ :=
  if e.2 > acc.2 then (some e.1, e.2) else acc

/-- Mode scan of the source's getSmoothedLabel: the first label whose
count strictly exceeds every earlier one, starting from count 0. -/
def bestCountScan (counts : List (String × ℕ)) : Option String × ℕ :=
  counts.foldl countScanStep (none, 0)

/-- Operation getSmoothedLabel of the source: mode of the window with the
most recent single-frame confidence; stable when the mode count reaches
STABLE_MIN and that confidence reaches MIN_CONF. -/
def getSmoothedLabel (s : SketchState) : SmoothedResult :=
  match s.lastLabel with
  | none => { label := none, conf := 0, stable := false }
  | some _ =>
    let counts := buildCounts s.smoothQueue
    let best := bestCountScan counts
    { label := best.1
      conf := s.lastConf
      stable := decide (best.2 ≥ STABLE_MIN) && decide (s.lastConf ≥ MIN_CONF) }

/-- Best-tracking part of the two-maximum scan on its own: the running
maximum together with its label, updated exactly when the scan's strict
comparison fires. -/
def foldBest (xs : List (String × ℚ)) (cur : Option (String × ℚ)) :
    Option (String × ℚ) :=
  match xs with
  | [] => cur
  | e :: rest =>
    foldBest rest (if gtO e.2 (cur.map fun p => p.2) then some e else cur)

/-- Wrist-to-reference x offset of the feature extractor. -/
def featDx (hand : Hand) : ℚ :=
  (lmAt (getLandmarks21 hand) 9).1 - (lmAt (getLandmarks21 hand) 0).1

/-- Wrist-to-reference y offset of the feature extractor. -/
def featDy (hand : Hand) : ℚ :=
  (lmAt (getLandmarks21 hand) 9).2.1 - (lmAt (getLandmarks21 hand) 0).2.1

/-- Normalisation scale of the feature extractor, with the degenerate
guard substituting 1 when the square root comes out 0. -/
def featScale (M : MathFns) (hand : Hand) : ℚ :=
  if M.msqrt (featDx hand * featDx hand + featDy hand * featDy hand) = 0 then 1
  else M.msqrt (featDx hand * featDx hand + featDy hand * featDy hand)

/-- Cosine of the normalising rotation. -/
def featCosR (M : MathFns) (hand : Hand) : ℚ :=
  M.mcos (-(M.mpi / 2) - M.matan2 (featDy hand) (featDx hand))

/-- Sine of the normalising rotation. -/
def featSinR (M : MathFns) (hand : Hand) : ℚ :=
  M.msin (-(M.mpi / 2) - M.matan2 (featDy hand) (featDx hand))

/-- First coordinate of the i-th feature pair. -/
def featX (M : MathFns) (hand : Hand) (i : ℕ) : ℚ :=
  ((lmAt (getLandmarks21 hand) i).1 - (lmAt (getLandmarks21 hand) 0).1)
      / featScale M hand * featCosR M hand -
    ((lmAt (getLandmarks21 hand) i).2.1 - (lmAt (getLandmarks21 hand) 0).2.1)
      / featScale M hand * featSinR M hand

/-- Second coordinate of the i-th feature pair. -/
def featY (M : MathFns) (hand : Hand) (i : ℕ) : ℚ :=
  ((lmAt (getLandmarks21 hand) i).1 - (lmAt (getLandmarks21 hand) 0).1)
      / featScale M hand * featSinR M hand +
    ((lmAt (getLandmarks21 hand) i).2.1 - (lmAt (getLandmarks21 hand) 0).2.1)
      / featScale M hand * featCosR M hand

/-- Payload a parse produced, null on failure; an observer used to state
the theorems about handleImport. -/
def payloadOf (H : HostFns) (data : FileData) : JSVal :=
  match parseMaybeJSON H data with
  | .ok p => p
  | .error _ => .null

/-- Host functions that fail on every call; the concrete import inputs
below never reach them. -/
def hostNone : HostFns :=
  { jparse := fun _ => none, atobF := fun _ => none, decURI := fun _ => none }

/-- Hand with 21 keypoints along the x axis. -/
def hand21 : Hand :=
  { keypoints := (List.range 21).map fun i => { x := (i : ℚ), y := 0, z := none } }

/-- Hand with a single keypoint. -/
def handShort : Hand :=
  { keypoints := [{ x := 0, y := 0, z := none }] }

/-- Degenerate hand whose wrist and reference joint coincide. -/
def handDeg : Hand :=
  { keypoints := List.replicate 21 { x := 1, y := 2, z := none } }

/-- Start state with a valid hand in view. -/
def sC0 : SketchState := { initState with hands := [hand21] }

/-- State after a silent add at time 1000 from sC0. -/
def sC1 : SketchState :=
  ((addExample refFns 1000 "A" true sC0).toOption.map Prod.snd).getD sC0

/-- One-example store used by the classifier witnesses. -/
def exW : String → List (List ℚ) := fun l => if l = "A" then [[0]] else []

/-- Query and stored vector of the two-cluster scenario. -/
def vA : List ℚ := [0]

/-- Distant vector of the two-cluster scenario. -/
def vN : List ℚ := [5]

/-- Scenario store: 7 examples at vA labelled A, 7 at vN labelled NONE. -/
def exScn : String → List (List ℚ) := fun l =>
  if l = "A" then List.replicate 7 vA
  else if l = NONE_LABEL then List.replicate 7 vN
  else []

/-- Store producing an exact score tie: one B example at the query and
two A examples at distance EPS, so both labels accumulate weight
1000000, with B first among the sorted neighbours. -/
def exC6 : String → List (List ℚ) := fun l =>
  if l = "A" then [[0.000001], [0.000001]]
  else if l = "B" then [[0]]
  else []

/-- Import payload with an empty examples object and a history entry that
is not a label. -/
def payload9 : JSVal :=
  .obj [("examples", .obj []), ("addHistory", .arr [.str "??"])]

/-- Window full of the same label while the last single-frame confidence
is 0. -/
def sC8 : SketchState :=
  { initState with
    smoothQueue := List.replicate 12 "A"
    lastLabel := some "A"
    lastConf := 0 }

/-- JavaScript value of a possibly-null label field. -/
def jsOfOptStr : Option String → JSVal
  | none => .null
  | some s => .str s

/-- JavaScript object the source's classifyKNN return literal denotes:
exactly the keys label, conf, best, second, scores in insertion order,
and no others. -/
def knnResultToObj (r : KNNResult) : List (String × JSVal) :=
  [("label", jsOfOptStr r.label), ("conf", .num r.conf),
   ("best", jsOfOptStr r.best), ("second", jsOfOptStr r.second),
   ("scores", .obj (r.scores.map fun e => (e.1, .num e.2)))]

/-- Result the two-cluster scenario produces. -/
def scnResult : KNNResult :=
  { label := some "A", conf := 1, best := some "A", second := none,
    scores := [("A", 7000000)] }

theorem objGet_objSet {α : Type} (e : List (String × α)) (k l : String)
    (v : α) : objGet (objSet e k v) l = if k = l then some v else objGet e l := by
  induction e with
  | nil =>
    by_cases h : k = l
    · subst h; simp [objGet, objSet]
    · have hb : (l == k) = false := by simp [Ne.symm h]
      simp [objGet, objSet, List.lookup_cons, hb, h]
  | cons hd tl ih =>
    obtain ⟨k0, v0⟩ := hd
    by_cases hk : k0 = k
    · subst hk
      by_cases h : k0 = l
      · subst h
        simp [objGet, objSet]
      · have hb : (l == k0) = false := by simp [Ne.symm h]
        simp [objGet, objSet, List.lookup_cons, hb, h]
    · by_cases h : k0 = l
      · subst h
        have hb : (k0 == k0) = true := by simp
        have hkl : ¬k = k0 := fun hh => hk hh.symm
        simp [objGet, objSet, List.lookup_cons, hk, hb, hkl]
      · have hb : (l == k0) = false := by simp [Ne.symm h]
        have ih2 := ih
        simp only [objGet] at ih2
        simp [objGet, objSet, List.lookup_cons, hk, hb, ih2]

theorem objSet_objSet {α : Type} (e : List (String × α)) (k : String)
    (v w : α) : objSet (objSet e k v) k w = objSet e k w := by
  induction e with
  | nil => simp [objSet]
  | cons hd tl ih =>
    obtain ⟨k0, v0⟩ := hd
    by_cases hk : k0 = k <;> simp [objSet, hk, ih]

theorem objSet_self {α : Type} (e : List (String × α)) (k : String) (v : α)
    (h : objGet e k = some v) : objSet e k v = e := by
  induction e with
  | nil => simp [objGet] at h
  | cons hd tl ih =>
    obtain ⟨k0, v0⟩ := hd
    by_cases hk : k0 = k
    · subst hk
      simp [objGet] at h
      simp [objSet, h]
    · have hb : (k == k0) = false := by
        simp
        exact fun hh => hk hh.symm
      simp only [objGet, List.lookup_cons, hb] at h
      simp [objSet, hk, ih h]

theorem objGet_foldl_objSet_not_mem {α : Type} (L : List String)
    (f : String → α) (e : List (String × α)) (k : String) (h : k ∉ L) :
    objGet (L.foldl (fun e l => objSet e l (f l)) e) k = objGet e k := by
  induction L generalizing e with
  | nil => rfl
  | cons l L ih =>
    have hne : l ≠ k := fun hh => h (hh ▸ List.mem_cons_self l L)
    have hk : k ∉ L := fun hh => h (List.mem_cons_of_mem l hh)
    simp only [List.foldl_cons]
    rw [ih _ hk, objGet_objSet, if_neg hne]

theorem objGet_foldl_objSet_mem {α : Type} (L : List String) (f : String → α)
    (e : List (String × α)) (k : String) (h : k ∈ L) :
    objGet (L.foldl (fun e l => objSet e l (f l)) e) k = some (f k) := by
  induction L generalizing e with
  | nil => simp at h
  | cons l L ih =>
    simp only [List.foldl_cons]
    by_cases hmem : k ∈ L
    · exact ih _ hmem
    · have : k = l := by
        rcases List.mem_cons.mp h with h1 | h2
        · exact h1
        · exact absurd h2 hmem
      subst this
      rw [objGet_foldl_objSet_not_mem _ _ _ _ hmem, objGet_objSet, if_pos rfl]

theorem counts_lookup (q : List String) (acc : List (String × ℕ))
    (l : String) :
    (objGet (q.foldl countUpd acc) l).getD 0 = (objGet acc l).getD 0 + q.count l := by
  induction q generalizing acc with
  | nil => simp
  | cons x q ih =>
    simp only [List.foldl_cons]
    rw [ih]
    by_cases hx : x = l
    · subst hx
      have : objGet (countUpd acc x) x = some ((objGet acc x).getD 0 + 1) := by
        rw [countUpd, objGet_objSet, if_pos rfl]
      rw [this]
      simp [List.count_cons]
      omega
    · have : objGet (countUpd acc x) l = objGet acc l := by
        rw [countUpd, objGet_objSet, if_neg hx]
      rw [this]
      have hbx : (l == x) = false := by simp [Ne.symm hx]
      simp [List.count_cons, hbx, hx]

theorem mem_keys_objSet {α : Type} (e : List (String × α)) (k : String)
    (v : α) (l : String) (h : l ∈ (objSet e k v).map Prod.fst) :
    l ∈ e.map Prod.fst ∨ l = k := by
  induction e with
  | nil => simp [objSet] at h; right; exact h
  | cons hd tl ih =>
    obtain ⟨k0, v0⟩ := hd
    by_cases hk : k0 = k
    · subst hk
      left
      have h2 : l ∈ k0 :: List.map Prod.fst tl := by simpa [objSet] using h
      simpa using h2
    · simp only [objSet, if_neg hk, List.map_cons, List.mem_cons] at h
      rcases h with h | h
      · left; simp [h]
      · rcases ih h with h1 | h1
        · left; simp [h1]
        · right; exact h1

theorem nodup_keys_objSet {α : Type} (e : List (String × α)) (k : String)
    (v : α) (h : (e.map Prod.fst).Nodup) : ((objSet e k v).map Prod.fst).Nodup := by
  induction e with
  | nil => simp [objSet]
  | cons hd tl ih =>
    obtain ⟨k0, v0⟩ := hd
    simp only [List.map_cons, List.nodup_cons] at h
    by_cases hk : k0 = k
    · simp only [objSet, if_pos hk, List.map_cons, List.nodup_cons]
      exact h
    · simp only [objSet, if_neg hk, List.map_cons, List.nodup_cons]
      refine ⟨fun hmem => ?_, ih h.2⟩
      rcases mem_keys_objSet _ _ _ _ hmem with h1 | h1
      · exact h.1 h1
      · exact hk h1

theorem nodup_keys_foldl_countUpd (q : List String)
    (acc : List (String × ℕ)) (h : (acc.map Prod.fst).Nodup) :
    ((q.foldl countUpd acc).map Prod.fst).Nodup := by
  induction q generalizing acc with
  | nil => exact h
  | cons x q ih =>
    simp only [List.foldl_cons]
    exact ih _ (nodup_keys_objSet _ _ _ h)

theorem lookup_of_mem_nodup {α : Type} (e : List (String × α)) (l : String)
    (c : α) (hmem : (l, c) ∈ e) (h : (e.map Prod.fst).Nodup) :
    objGet e l = some c := by
  induction e with
  | nil => simp at hmem
  | cons hd tl ih =>
    obtain ⟨k0, v0⟩ := hd
    simp only [List.map_cons, List.nodup_cons] at h
    rcases List.mem_cons.mp hmem with h1 | h1
    · injection h1 with hl hc
      subst hl
      subst hc
      simp [objGet]
    · have hne : k0 ≠ l := by
        intro hh
        subst hh
        exact h.1 (List.mem_map.mpr ⟨(k0, c), h1, rfl⟩)
      have hb : (l == k0) = false := by simp [Ne.symm hne]
      simp only [objGet, List.lookup_cons, hb]
      exact ih h1 h.2

theorem mem_of_lookup {α : Type} (e : List (String × α)) (l : String) (c : α)
    (h : objGet e l = some c) : (l, c) ∈ e := by
  induction e with
  | nil => simp [objGet] at h
  | cons hd tl ih =>
    obtain ⟨k0, v0⟩ := hd
    by_cases hk : l = k0
    · subst hk
      simp [objGet] at h
      simp [h]
    · have hb : (l == k0) = false := by simp [hk]
      simp only [objGet, List.lookup_cons, hb] at h
      exact List.mem_cons_of_mem _ (ih h)

theorem countScan_snd_ge (counts : List (String × ℕ))
    (p : Option String × ℕ) : p.2 ≤ (counts.foldl countScanStep p).2 := by
  induction counts generalizing p with
  | nil => exact le_refl _
  | cons e counts ih =>
    simp only [List.foldl_cons]
    refine le_trans ?_ (ih (countScanStep p e))
    simp only [countScanStep]
    split
    · omega
    · exact le_refl _

theorem countScan_mem_ge (counts : List (String × ℕ))
    (p : Option String × ℕ) (e : String × ℕ) (he : e ∈ counts) :
    e.2 ≤ (counts.foldl countScanStep p).2 := by
  induction counts generalizing p with
  | nil => simp at he
  | cons x counts ih =>
    simp only [List.foldl_cons]
    rcases List.mem_cons.mp he with h | h
    · subst h
      refine le_trans ?_ (countScan_snd_ge counts (countScanStep p e))
      simp only [countScanStep]
      split
      · exact le_refl _
      · omega
    · exact ih _ h

theorem countScan_result (counts : List (String × ℕ))
    (p : Option String × ℕ) :
    counts.foldl countScanStep p = p ∨
      ∃ e ∈ counts, counts.foldl countScanStep p = (some e.1, e.2) := by
  induction counts generalizing p with
  | nil => left; rfl
  | cons x counts ih =>
    simp only [List.foldl_cons]
    rcases ih (countScanStep p x) with h | h
    · rw [h]
      simp only [countScanStep]
      split
      · right
        exact ⟨x, List.mem_cons_self x counts, rfl⟩
      · left; rfl
    · obtain ⟨e, he, hres⟩ := h
      right
      exact ⟨e, List.mem_cons_of_mem x he, hres⟩

theorem bestScan_foldBest (xs : List (String × ℚ))
    (p : Option (String × ℚ)) (sl : Option String) (ss : Option ℚ) :
    (xs.foldl scanStep (p.map Prod.fst, p.map Prod.snd, sl, ss)).1 =
        (foldBest xs p).map Prod.fst ∧
      (xs.foldl scanStep (p.map Prod.fst, p.map Prod.snd, sl, ss)).2.1 =
        (foldBest xs p).map Prod.snd := by
  induction xs generalizing p sl ss with
  | nil => exact ⟨rfl, rfl⟩
  | cons e xs ih =>
    simp only [List.foldl_cons, foldBest]
    by_cases hgt : gtO e.2 (p.map Prod.snd) = true
    · have hstep : scanStep (p.map Prod.fst, p.map Prod.snd, sl, ss) e =
          ((some e).map Prod.fst, (some e).map Prod.snd, p.map Prod.fst,
            p.map Prod.snd) := by
        simp only [scanStep, hgt, if_true]
        rfl
      have hcond : (p.map fun q => q.2) = p.map Prod.snd := rfl
      rw [hstep, hcond, hgt]
      simp only [if_true]
      exact ih (some e) _ _
    · have hgt2 : gtO e.2 (p.map Prod.snd) = false := by
        simpa using hgt
      have hcond : (p.map fun q => q.2) = p.map Prod.snd := rfl
      rw [hcond, hgt2]
      simp only [Bool.false_eq_true, if_false]
      have hstep : ∃ sl2 ss2,
          scanStep (p.map Prod.fst, p.map Prod.snd, sl, ss) e =
            (p.map Prod.fst, p.map Prod.snd, sl2, ss2) := by
        simp only [scanStep, hgt2, Bool.false_eq_true, if_false]
        by_cases h2 : gtO e.2 ss = true
        · rw [h2]
          simp only [if_true]
          exact ⟨some e.1, some e.2, rfl⟩
        · simp only [Bool.not_eq_true] at h2
          rw [h2]
          simp only [Bool.false_eq_true, if_false]
          exact ⟨sl, ss, rfl⟩
      obtain ⟨sl2, ss2, hstep⟩ := hstep
      rw [hstep]
      exact ih p sl2 ss2

theorem foldBest_spec (xs : List (String × ℚ)) (p : Option (String × ℚ)) :
    (foldBest xs p = p ∧ ∀ e ∈ xs, gtO e.2 (p.map Prod.snd) = false) ∨
      ∃ l s pre post, foldBest xs p = some (l, s) ∧
        xs = pre ++ (l, s) :: post ∧ gtO s (p.map Prod.snd) = true ∧
        (∀ e ∈ pre, e.2 < s) ∧ ∀ e ∈ post, e.2 ≤ s := by
  induction xs generalizing p with
  | nil => left; exact ⟨rfl, by simp⟩
  | cons e xs ih =>
    have hcond : (p.map fun q => q.2) = p.map Prod.snd := rfl
    by_cases hgt : gtO e.2 (p.map Prod.snd) = true
    · have hfb : foldBest (e :: xs) p = foldBest xs (some e) := by
        simp only [foldBest, hcond, hgt, if_true]
      rcases ih (some e) with ⟨h1, h2⟩ | ⟨l, s, pre, post, h1, h2, h3, h4, h5⟩
      · right
        refine ⟨e.1, e.2, [], xs, ?_, by simp, hgt, by simp, ?_⟩
        · rw [hfb, h1]
        · intro x hx
          have := h2 x hx
          simp only [Option.map_some, gtO] at this
          simpa using of_decide_eq_false this
      · right
        have hlt : e.2 < s := by
          simp only [Option.map_some, gtO] at h3
          exact of_decide_eq_true h3
        refine ⟨l, s, e :: pre, post, by rw [hfb, h1], by rw [h2]; rfl, ?_, ?_, h5⟩
        · by_cases hp : p = none
          · subst hp; rfl
          · obtain ⟨q, rfl⟩ := Option.ne_none_iff_exists'.mp hp
            simp only [Option.map_some, gtO] at hgt ⊢
            have h6 := of_decide_eq_true hgt
            exact decide_eq_true (lt_trans h6 hlt)
        · intro x hx
          rcases List.mem_cons.mp hx with h | h
          · subst h; exact hlt
          · exact h4 x h
    · have hgt2 : gtO e.2 (p.map Prod.snd) = false := by simpa using hgt
      have hfb : foldBest (e :: xs) p = foldBest xs p := by
        simp only [foldBest, hcond, hgt2, Bool.false_eq_true, if_false]
      rcases ih p with ⟨h1, h2⟩ | ⟨l, s, pre, post, h1, h2, h3, h4, h5⟩
      · left
        refine ⟨by rw [hfb, h1], ?_⟩
        intro x hx
        rcases List.mem_cons.mp hx with h | h
        · subst h; exact hgt2
        · exact h2 x h
      · right
        refine ⟨l, s, e :: pre, post, by rw [hfb, h1], by rw [h2]; rfl, h3, ?_, h5⟩
        intro x hx
        rcases List.mem_cons.mp hx with h | h
        · subst h
          obtain ⟨q, hq⟩ : ∃ q, p = some q := by
            cases p with
            | none => simp [gtO] at hgt2
            | some q => exact ⟨q, rfl⟩
          subst hq
          simp only [Option.map_some, gtO] at hgt2 h3
          have hxle : x.2 ≤ q.2 := le_of_not_lt (of_decide_eq_false hgt2)
          have hqs : q.2 < s := of_decide_eq_true h3
          exact lt_of_le_of_lt hxle hqs
        · exact h4 x h

theorem foldl_add_length (M : MathFns) (ex : String → List (List ℚ))
    (q : List ℚ) (L : List String) (n : ℕ) :
    L.foldl (fun sum l => sum + (ex l).length) n =
      n + (L.flatMap fun label =>
        (ex label).map fun v =>
          ({ label := label, d := l2Distance M q v } : Neighbor)).length := by
  induction L generalizing n with
  | nil => simp
  | cons l L ih =>
    simp only [List.foldl_cons, List.flatMap_cons, List.length_append,
      List.length_map, ih]
    omega

theorem neighbors_length (M : MathFns) (ex : String → List (List ℚ))
    (q : List ℚ) : (neighborsOf M ex q).length = totalExamples ex := by
  rw [neighborsOf, totalExamples, foldl_add_length M ex q ALL_LABELS 0]
  omega

theorem pairFlatMap_length (n : ℕ) (f g : ℕ → ℚ) :
    ((List.range n).flatMap fun i => [f i, g i]).length = 2 * n := by
  induction n with
  | zero => rfl
  | succ n ih =>
    rw [List.range_succ, List.flatMap_append, List.length_append, ih]
    simp
    omega

theorem pairFlatMap_get (n i : ℕ) (f g : ℕ → ℚ) (h : i < n) :
    ((List.range n).flatMap fun j => [f j, g j]).get? (2 * i) = some (f i) ∧
      ((List.range n).flatMap fun j => [f j, g j]).get? (2 * i + 1) = some (g i) := by
  induction n with
  | zero => omega
  | succ n ih =>
    rw [List.range_succ, List.flatMap_append]
    by_cases hi : i < n
    · have hlen := pairFlatMap_length n f g
      constructor
      · rw [List.get?_append (by omega), (ih hi).1]
      · rw [List.get?_append (by omega), (ih hi).2]
    · have hi2 : i = n := by omega
      subst hi2
      have hlen := pairFlatMap_length i f g
      constructor
      · rw [List.get?_append_right (by omega)]
        rw [hlen]
        simp
      · rw [List.get?_append_right (by omega)]
        rw [hlen]
        have : 2 * i + 1 - 2 * i = 1 := by omega
        rw [this]
        simp

/-- C1: on every non-empty dataset and query, classifyKNN returns a
result whose final label is the NONE/REJECT label exactly when the raw
distance-weighted kNN best label is NONE, or the confidence is below
MIN_CONF, or the margin is below MIN_MARGIN; otherwise the final label is
the raw best label.  The raw quantities are those of the embedded
pipeline: k = min(K, n) nearest by L2 distance, weights 1/(d + EPS),
per-label weight sums, confidence bestScore/total, margin
confidence - secondConfidence. -/
theorem c1_classify_gating (M : MathFns) (ex : String → List (List ℚ))
    (q : List ℚ) (h : 0 < totalExamples ex) :
    ∃ r, classifyKNN M ex q = some r ∧
      (r.label = some NONE_LABEL ↔
        (bestLabelOf M ex q = some NONE_LABEL ∨ confOf M ex q < MIN_CONF ∨
          marginOf M ex q < MIN_MARGIN)) ∧
      (¬(bestLabelOf M ex q = some NONE_LABEL ∨ confOf M ex q < MIN_CONF ∨
          marginOf M ex q < MIN_MARGIN) → r.label = bestLabelOf M ex q) := by
  have hlen : ¬((neighborsOf M ex q).length = 0) := by
    rw [neighbors_length]
    omega
  by_cases hbest : bestLabelOf M ex q = some NONE_LABEL
  · refine ⟨⟨some NONE_LABEL, confOf M ex q, bestLabelOf M ex q,
      secondLabelOf M ex q, scoresOf M ex q⟩, ?_, ?_, ?_⟩
    · simp only [classifyKNN, if_neg hlen, if_pos hbest]
    · simp [hbest]
    · intro hno
      exact absurd (Or.inl hbest) hno
  · by_cases hg : confOf M ex q < MIN_CONF ∨ marginOf M ex q < MIN_MARGIN
    · refine ⟨⟨some NONE_LABEL, confOf M ex q, bestLabelOf M ex q,
        secondLabelOf M ex q, scoresOf M ex q⟩, ?_, ?_, ?_⟩
      · simp only [classifyKNN, if_neg hlen, if_neg hbest, if_pos hg]
      · exact iff_of_true rfl (Or.inr hg)
      · intro hno
        exact absurd (Or.inr hg) hno
    · refine ⟨⟨bestLabelOf M ex q, confOf M ex q, bestLabelOf M ex q,
        secondLabelOf M ex q, scoresOf M ex q⟩, ?_, ?_, ?_⟩
      · simp only [classifyKNN, if_neg hlen, if_neg hbest, if_neg hg]
      · constructor
        · intro hh
          exact absurd hh hbest
        · intro hh
          exact absurd hh (by simp [hbest, hg])
      · intro _
        rfl

/-- C1 witness: the gating theorem applied to a concrete one-example
dataset. -/
theorem c1_classify_gating_witness :
    0 < totalExamples exW ∧
      ∃ r, classifyKNN refFns exW vA = some r ∧
        (r.label = some NONE_LABEL ↔
          (bestLabelOf refFns exW vA = some NONE_LABEL ∨
            confOf refFns exW vA < MIN_CONF ∨
            marginOf refFns exW vA < MIN_MARGIN)) ∧
        (¬(bestLabelOf refFns exW vA = some NONE_LABEL ∨
            confOf refFns exW vA < MIN_CONF ∨
            marginOf refFns exW vA < MIN_MARGIN) →
          r.label = bestLabelOf refFns exW vA) :=
  ⟨by decide, c1_classify_gating refFns exW vA (by decide)⟩

/-- Key set of the result object: whatever the classification, the
object the source returns has no margin property. -/
theorem knnResultToObj_no_margin (r : KNNResult) :
    objGet (knnResultToObj r) "margin" = none := rfl

/-- C5 (amended): every classification on a non-empty dataset yields a
result carrying the confidence, the raw pre-gating best and second
labels, and the per-label score map, even when the final label is NONE —
but no margin field: the returned object has no margin property, and the
margin is only recoverable from the carried scores via marginFromScores.
On the two-cluster scenario of 7 examples at vA labelled A and 7 at vN
labelled NONE, querying with vA yields label A and confidence 1, and the
margin recovered from the carried scores is 1. -/
theorem c5_result_observability :
    (∀ (M : MathFns) (ex : String → List (List ℚ)) (q : List ℚ),
      0 < totalExamples ex →
        ∃ r, classifyKNN M ex q = some r ∧
          r.conf = confFromScores r.scores ∧
          r.best = bestLabelFromScores r.scores ∧
          r.second = secondLabelFromScores r.scores ∧
          marginFromScores r.scores = marginOf M ex q ∧
          objGet (knnResultToObj r) "margin" = none) ∧
      classifyKNN refFns exScn vA = some scnResult ∧
      marginFromScores scnResult.scores = 1 := by
  refine ⟨?_, by decide, by decide⟩
  intro M ex q h
  have hlen : ¬((neighborsOf M ex q).length = 0) := by
    rw [neighbors_length]
    omega
  by_cases hbest : bestLabelOf M ex q = some NONE_LABEL
  · exact ⟨⟨some NONE_LABEL, confOf M ex q, bestLabelOf M ex q,
      secondLabelOf M ex q, scoresOf M ex q⟩,
      by simp only [classifyKNN, if_neg hlen, if_pos hbest],
      rfl, rfl, rfl, rfl, knnResultToObj_no_margin _⟩
  · by_cases hg : confOf M ex q < MIN_CONF ∨ marginOf M ex q < MIN_MARGIN
    · exact ⟨⟨some NONE_LABEL, confOf M ex q, bestLabelOf M ex q,
        secondLabelOf M ex q, scoresOf M ex q⟩,
        by simp only [classifyKNN, if_neg hlen, if_neg hbest, if_pos hg],
        rfl, rfl, rfl, rfl, knnResultToObj_no_margin _⟩
    · exact ⟨⟨bestLabelOf M ex q, confOf M ex q, bestLabelOf M ex q,
        secondLabelOf M ex q, scoresOf M ex q⟩,
        by simp only [classifyKNN, if_neg hlen, if_neg hbest, if_neg hg],
        rfl, rfl, rfl, rfl, knnResultToObj_no_margin _⟩

/-- C5 witness: the observability part applied to a concrete one-example
dataset. -/
theorem c5_result_observability_witness :
    0 < totalExamples exW ∧
      ∃ r, classifyKNN refFns exW vA = some r ∧
        r.conf = confFromScores r.scores ∧
        r.best = bestLabelFromScores r.scores ∧
        r.second = secondLabelFromScores r.scores ∧
        marginFromScores r.scores = marginOf refFns exW vA ∧
        objGet (knnResultToObj r) "margin" = none :=
  ⟨by decide, c5_result_observability.1 refFns exW vA (by decide)⟩

/-- C5 counterexample: in the two-cluster scenario the claim promises a
result that contains margin 1.0, but the object the source returns for
this very query has no margin property at all — objGet on the key margin
is undefined — even though the label is A, the confidence field is 1 and
the margin of the classification, as the claim defines it, is 1. -/
theorem c5_no_margin_field_counterexample :
    classifyKNN refFns exScn vA = some scnResult ∧
      objGet (knnResultToObj scnResult) "margin" = none ∧
      objGet (knnResultToObj scnResult) "label" = some (.str "A") ∧
      objGet (knnResultToObj scnResult) "conf" = some (.num 1) ∧
      marginOf refFns exScn vA = 1 :=
  ⟨by decide, rfl, rfl, rfl, by decide⟩

/-- Inverse step used by the add/undo law: undoing right after the push
restores the store and the history. -/
theorem undo_after_push (s e1 : SketchState) (label : String)
    (arr : List JSVal) (v : JSVal)
    (harr : objGet s.examples label = some arr)
    (he : e1.examples = objSet s.examples label (arr ++ [v]))
    (hh : e1.addHistory = s.addHistory ++ [JSVal.str label]) :
    ∃ s2, undoLast e1 = .ok s2 ∧ s2.examples = s.examples ∧
      s2.addHistory = s.addHistory := by
  rw [undoLast, hh]
  simp only [List.getLast?_concat]
  have hkey : jsPropKey (JSVal.str label) = label := rfl
  rw [hkey, List.dropLast_concat, he, objGet_objSet, if_pos rfl]
  have hlen : (arr ++ [v]).length > 0 := by simp
  simp only [hlen, if_true]
  refine ⟨_, rfl, ?_, rfl⟩
  simp only [List.dropLast_concat]
  rw [objSet_objSet]
  exact objSet_self _ _ _ harr

/-- C2: a successful addExample followed immediately by undoLast restores
the examples store and the add history exactly, for every label, call
time and starting state in which the add succeeds; and undoLast on an
empty history reports Nothing to undo and mutates nothing. -/
theorem c2_add_undo_inverse :
    (∀ (M : MathFns) (now : ℚ) (label : String) (silent : Bool)
        (s s1 : SketchState),
      addExample M now label silent s = .ok (true, s1) →
        ∃ s2, undoLast s1 = .ok s2 ∧ s2.examples = s.examples ∧
          s2.addHistory = s.addHistory) ∧
      ∀ s : SketchState, s.addHistory = [] →
        undoLast s = .ok { s with statusMsg := "Nothing to undo" } := by
  constructor
  · intro M now label silent s s1 hadd
    by_cases hdeb : ¬silent = true ∧ now - s.lastAddAt < ADD_DEBOUNCE_MS
    · rw [addExample, if_pos hdeb] at hadd
      simp at hadd
    · rw [addExample, if_neg hdeb] at hadd
      rcases hfeats : getHandFeatures M s.hands with _ | feats
      · simp only [hfeats] at hadd
        simp at hadd
      · simp only [hfeats] at hadd
        rcases harr : objGet s.examples label with _ | arr
        · simp only [harr] at hadd
          simp at hadd
        · simp only [harr] at hadd
          by_cases hsil : silent = true
          · rw [if_pos hsil] at hadd
            injection hadd with h2
            injection h2 with _ hs
            exact undo_after_push s s1 label arr (featsToJS feats) harr
              (by rw [hs.symm]) (by rw [hs.symm])
          · rw [if_neg hsil] at hadd
            injection hadd with h2
            injection h2 with _ hs
            exact undo_after_push s s1 label arr (featsToJS feats) harr
              (by rw [hs.symm]) (by rw [hs.symm])
  · intro s h
    rw [undoLast, h]
    rfl

/-- C2 witness: the inverse law applied to the concrete silent add from
sC0, and the empty-history case applied to the start state. -/
theorem c2_add_undo_inverse_witness :
    (∃ s2, undoLast sC1 = .ok s2 ∧ s2.examples = sC0.examples ∧
      s2.addHistory = sC0.addHistory) ∧
      undoLast initState = .ok { initState with statusMsg := "Nothing to undo" } :=
  ⟨c2_add_undo_inverse.1 refFns 1000 "A" true sC0 sC1 rfl,
    c2_add_undo_inverse.2 initState rfl⟩

/-- C3: when an import fails to deserialise (unparseable data or a falsy
examples field), the store and the history are left unchanged and failure
is reported in the status; when it succeeds, every canonical label's list
and the history are replaced wholesale from the payload. -/
theorem c3_import_atomic (H : HostFns) (data : FileData) (s : SketchState) :
    (importAccepts H data = false →
      (handleImport H (some data) s).examples = s.examples ∧
        (handleImport H (some data) s).addHistory = s.addHistory ∧
        ∃ m, (handleImport H (some data) s).statusMsg = "Import failed — " ++ m) ∧
      (importAccepts H data = true →
        (∀ l ∈ ALL_LABELS,
          objGet (handleImport H (some data) s).examples l =
            some (importedArr (payloadOf H data) l)) ∧
          (handleImport H (some data) s).addHistory =
            importedHistory (payloadOf H data)) := by
  rcases hp : parseMaybeJSON H data with msg | payload
  · have hred : handleImport H (some data) s =
        { s with statusMsg := "Import failed — " ++ msg } := by
      simp only [handleImport, hp]
    constructor
    · intro _
      rw [hred]
      exact ⟨rfl, rfl, msg, rfl⟩
    · intro hacc
      simp only [importAccepts, hp] at hacc
      exact absurd hacc (by simp)
  · have hpay : payloadOf H data = payload := by simp only [payloadOf, hp]
    by_cases hc : (jsTruthy payload && jsTruthyOpt (jsGet payload "examples")) = true
    · have hacc : importAccepts H data = true := by
        rw [importAccepts, hp]
        exact hc
      constructor
      · intro hfalse
        rw [hacc] at hfalse
        exact absurd hfalse (by simp)
      · intro _
        rw [hpay]
        have hred1 : (handleImport H (some data) s).examples =
            ALL_LABELS.foldl (fun e l => objSet e l (importedArr payload l))
              s.examples := by
          simp only [handleImport, hp, hc, if_true]
        have hred2 : (handleImport H (some data) s).addHistory =
            importedHistory payload := by
          simp only [handleImport, hp, hc, if_true]
        refine ⟨?_, hred2⟩
        intro l hl
        rw [hred1]
        exact objGet_foldl_objSet_mem ALL_LABELS (importedArr payload)
          s.examples l hl
    · have hcf : (jsTruthy payload && jsTruthyOpt (jsGet payload "examples")) = false := by
        simpa using hc
      have hred : handleImport H (some data) s =
          { s with statusMsg := "Import failed — Missing examples in JSON" } := by
        simp only [handleImport, hp, hcf]
        rfl
      constructor
      · intro _
        rw [hred]
        exact ⟨rfl, rfl, "Missing examples in JSON", rfl⟩
      · intro hacc
        simp only [importAccepts, hp] at hacc
        rw [hacc] at hcf
        exact absurd hcf (by simp)

/-- C3 witness: the failure branch applied to an unreadable numeric file
payload, and the success branch applied to payload9. -/
theorem c3_import_atomic_witness :
    ((handleImport hostNone (some (some (JSVal.num 5))) sC0).examples =
        sC0.examples ∧
      (handleImport hostNone (some (some (JSVal.num 5))) sC0).addHistory =
        sC0.addHistory ∧
      ∃ m, (handleImport hostNone (some (some (JSVal.num 5))) sC0).statusMsg =
        "Import failed — " ++ m) ∧
      (∀ l ∈ ALL_LABELS,
        objGet (handleImport hostNone (some (some payload9)) sC0).examples l =
          some (importedArr (payloadOf hostNone (some payload9)) l)) ∧
        (handleImport hostNone (some (some payload9)) sC0).addHistory =
          importedHistory (payloadOf hostNone (some payload9)) :=
  ⟨(c3_import_atomic hostNone (some (JSVal.num 5)) sC0).1 rfl,
    (c3_import_atomic hostNone (some payload9) sC0).2 rfl⟩

/-- C10: every accepted import and every clearAll reset the smoothing and
recording state: the window empties, the last single-frame label and
confidence clear, record mode and its held label switch off, and the
smoothed result right afterwards is the empty one, so no earlier
classifier output contributes to later smoothed results. -/
theorem c10_reset_on_import_and_clear :
    (∀ (H : HostFns) (data : FileData) (s : SketchState),
      importAccepts H data = true →
        (handleImport H (some data) s).smoothQueue = [] ∧
          (handleImport H (some data) s).lastLabel = none ∧
          (handleImport H (some data) s).lastConf = 0 ∧
          (handleImport H (some data) s).recordLabel = none ∧
          (handleImport H (some data) s).recordMode = false ∧
          getSmoothedLabel (handleImport H (some data) s) =
            { label := none, conf := 0, stable := false }) ∧
      ∀ s : SketchState,
        (clearAll s).smoothQueue = [] ∧ (clearAll s).lastLabel = none ∧
          (clearAll s).lastConf = 0 ∧ (clearAll s).recordLabel = none ∧
          (clearAll s).recordMode = false ∧
          getSmoothedLabel (clearAll s) =
            { label := none, conf := 0, stable := false } := by
  constructor
  · intro H data s hacc
    rcases hp : parseMaybeJSON H data with msg | payload
    · simp only [importAccepts, hp] at hacc
      exact absurd hacc (by simp)
    · simp only [importAccepts, hp] at hacc
      have h1 : (handleImport H (some data) s).smoothQueue = [] := by
        simp only [handleImport, hp, hacc, if_true]
      have h2 : (handleImport H (some data) s).lastLabel = none := by
        simp only [handleImport, hp, hacc, if_true]
      have h3 : (handleImport H (some data) s).lastConf = 0 := by
        simp only [handleImport, hp, hacc, if_true]
      have h4 : (handleImport H (some data) s).recordLabel = none := by
        simp only [handleImport, hp, hacc, if_true]
      have h5 : (handleImport H (some data) s).recordMode = false := by
        simp only [handleImport, hp, hacc, if_true]
      refine ⟨h1, h2, h3, h4, h5, ?_⟩
      rw [getSmoothedLabel, h2]
  · intro s
    exact ⟨rfl, rfl, rfl, rfl, rfl, rfl⟩

/-- C10 witness: the reset theorem applied to the concrete accepted
payload9 imported from sC0, and to clearAll at the start state. -/
theorem c10_reset_on_import_and_clear_witness :
    ((handleImport hostNone (some (some payload9)) sC0).smoothQueue = [] ∧
      (handleImport hostNone (some (some payload9)) sC0).lastLabel = none ∧
      (handleImport hostNone (some (some payload9)) sC0).lastConf = 0 ∧
      (handleImport hostNone (some (some payload9)) sC0).recordLabel = none ∧
      (handleImport hostNone (some (some payload9)) sC0).recordMode = false ∧
      getSmoothedLabel (handleImport hostNone (some (some payload9)) sC0) =
        { label := none, conf := 0, stable := false }) ∧
      (clearAll initState).smoothQueue = [] ∧
      (clearAll initState).lastLabel = none ∧
      (clearAll initState).lastConf = 0 ∧
      (clearAll initState).recordLabel = none ∧
      (clearAll initState).recordMode = false ∧
      getSmoothedLabel (clearAll initState) =
        { label := none, conf := 0, stable := false } :=
  ⟨c10_reset_on_import_and_clear.1 hostNone (some payload9) sC0 rfl,
    c10_reset_on_import_and_clear.2 initState⟩

/-- C9 (code bug): the import of payload9 is accepted and reports
success, yet the very next undo faults: the bogus history entry is not a
store key, so the sketch reads .length of undefined and throws, where the
spec requires every operation to return a status instead of crashing. -/
theorem c9_undo_after_import_faults :
    (handleImport hostNone (some (some payload9)) initState).statusMsg =
        "Imported (0 examples)" ∧
      undoLast (handleImport hostNone (some (some payload9)) initState) =
        .error { message := "TypeError: examples[label] is undefined" } :=
  ⟨rfl, rfl⟩

/-- C7 (amended): a non-silent addExample is debounce-rejected with no
mutation exactly when less than ADD_DEBOUNCE_MS has elapsed since
lastAddAt, and every call that passes the gate, silent calls included,
advances lastAddAt to its own call time — so silent adds bypass the check
but do move the window a later non-silent add is measured against. -/
theorem c7_debounce_window_amended :
    (∀ (M : MathFns) (now : ℚ) (label : String) (s : SketchState),
      now - s.lastAddAt < ADD_DEBOUNCE_MS →
        addExample M now label false s = .ok (false, s)) ∧
      ∀ (M : MathFns) (now : ℚ) (label : String) (silent : Bool)
        (s : SketchState) (b : Bool) (s1 : SketchState),
        (silent = true ∨ ADD_DEBOUNCE_MS ≤ now - s.lastAddAt) →
          addExample M now label silent s = .ok (b, s1) →
            s1.lastAddAt = now := by
  constructor
  · intro M now label s h
    rw [addExample, if_pos ⟨by simp, h⟩]
  · intro M now label silent s b s1 hpass hadd
    have hgate : ¬(¬silent = true ∧ now - s.lastAddAt < ADD_DEBOUNCE_MS) := by
      rcases hpass with h | h
      · exact fun hc => hc.1 h
      · exact fun hc => absurd hc.2 (not_lt.mpr h)
    rw [addExample, if_neg hgate] at hadd
    rcases hfeats : getHandFeatures M s.hands with _ | feats <;>
      simp only [hfeats] at hadd
    · injection hadd with h2
      injection h2 with hb hs
      subst hs
      split <;> rfl
    · rcases harr : objGet s.examples label with _ | arr <;>
        simp only [harr] at hadd
      · exact absurd hadd (by simp)
      · injection hadd with h2
        injection h2 with hb hs
        subst hs
        split <;> rfl

/-- C7 witness: the rejection case at 100ms from the start state, and the
window-advance case for the silent add behind sC1. -/
theorem c7_debounce_window_amended_witness :
    addExample refFns 100 "A" false initState = .ok (false, initState) ∧
      sC1.lastAddAt = 1000 :=
  ⟨c7_debounce_window_amended.1 refFns 100 "A" initState (by decide),
    c7_debounce_window_amended.2 refFns 1000 "A" true sC0 true sC1
      (Or.inl rfl) rfl⟩

/-- C7 counterexample: from a fresh state that has never seen a
non-silent add (empty history, lastAddAt 0), a silent add at 1000ms
succeeds, and a non-silent add at 1100ms — more than ADD_DEBOUNCE_MS
after every previous non-silent add — is nevertheless rejected with no
mutation, because the silent add moved the debounce window. -/
theorem c7_silent_add_moves_window_counterexample :
    addExample refFns 1000 "A" true sC0 = .ok (true, sC1) ∧
      sC1.lastAddAt = 1000 ∧ sC0.lastAddAt = 0 ∧ sC0.addHistory = [] ∧
      ADD_DEBOUNCE_MS ≤ (1100 : ℚ) - sC0.lastAddAt ∧
      addExample refFns 1100 "B" false sC1 = .ok (false, sC1) :=
  ⟨rfl, rfl, rfl, rfl, by decide, rfl⟩

/-- C8 (amended): the smoother reports stable exactly under the source's
compound condition: when some label reaches STABLE_MIN occurrences in the
window AND a last single-frame label exists AND the last single-frame
confidence reaches MIN_CONF the result is stable; when every label has
fewer than STABLE_MIN occurrences the result is never stable. -/
theorem c8_smoother_stability_amended (s : SketchState) :
    (∀ l : String, s.lastLabel ≠ none → MIN_CONF ≤ s.lastConf →
      STABLE_MIN ≤ s.smoothQueue.count l →
        (getSmoothedLabel s).stable = true) ∧
      ((∀ l : String, s.smoothQueue.count l < STABLE_MIN) →
        (getSmoothedLabel s).stable = false) := by
  constructor
  · intro l hlbl hconf hcount
    rcases hl : s.lastLabel with _ | l0
    · exact absurd hl hlbl
    · have hlook : (objGet (buildCounts s.smoothQueue) l).getD 0 =
          s.smoothQueue.count l := by
        rw [buildCounts, counts_lookup]
        simp [objGet]
      have hsome : ∃ c, objGet (buildCounts s.smoothQueue) l = some c ∧
          STABLE_MIN ≤ c := by
        rcases hg : objGet (buildCounts s.smoothQueue) l with _ | c
        · rw [hg] at hlook
          simp only [Option.getD_none] at hlook
          rw [STABLE_MIN] at hcount
          omega
        · rw [hg] at hlook
          simp only [Option.getD_some] at hlook
          exact ⟨c, rfl, hlook ▸ hcount⟩
      obtain ⟨c, hg, hc⟩ := hsome
      have hmem : (l, c) ∈ buildCounts s.smoothQueue := mem_of_lookup _ _ _ hg
      have hbest : c ≤ (bestCountScan (buildCounts s.smoothQueue)).2 :=
        countScan_mem_ge _ _ (l, c) hmem
      simp only [getSmoothedLabel, hl]
      rw [Bool.and_eq_true, decide_eq_true_eq, decide_eq_true_eq]
      exact ⟨le_trans hc hbest, hconf⟩
  · intro hall
    rcases hl : s.lastLabel with _ | l0
    · simp only [getSmoothedLabel, hl]
    · simp only [getSmoothedLabel, hl]
      have hbest : (bestCountScan (buildCounts s.smoothQueue)).2 < STABLE_MIN := by
        rcases countScan_result (buildCounts s.smoothQueue) (none, 0) with h | h
        · rw [bestCountScan, h]
          rw [STABLE_MIN]
          omega
        · obtain ⟨e, he, hres⟩ := h
          have hnodup : ((buildCounts s.smoothQueue).map Prod.fst).Nodup := by
            apply nodup_keys_foldl_countUpd
            simp
          have hlookup : objGet (buildCounts s.smoothQueue) e.1 = some e.2 :=
            lookup_of_mem_nodup _ _ _ (by simpa using he) hnodup
          have hvc : (objGet (buildCounts s.smoothQueue) e.1).getD 0 =
              s.smoothQueue.count e.1 := by
            rw [buildCounts, counts_lookup]
            simp [objGet]
          rw [hlookup] at hvc
          simp only [Option.getD_some] at hvc
          rw [bestCountScan, hres]
          simp only
          rw [hvc]
          exact hall e.1
      rw [Bool.and_eq_false_iff]
      left
      simp only [decide_eq_false_iff_not]
      omega

/-- C8 witness: stability at a window of twelve As with high confidence,
and instability at the start state's empty window. -/
theorem c8_smoother_stability_amended_witness :
    (getSmoothedLabel { sC8 with lastConf := 1 }).stable = true ∧
      (getSmoothedLabel initState).stable = false :=
  ⟨(c8_smoother_stability_amended { sC8 with lastConf := 1 }).1 "A"
      (by decide) (by decide) (by decide),
    (c8_smoother_stability_amended initState).2 (by
      intro l
      rw [show initState.smoothQueue = [] from rfl]
      simp [STABLE_MIN])⟩

/-- C8 counterexample: the window holds twelve copies of A — far more
than STABLE_MIN — yet the smoother reports stable = false, because the
last single-frame confidence 0 fails the MIN_CONF conjunct the claim
omits. -/
theorem c8_low_conf_unstable_counterexample :
    STABLE_MIN ≤ sC8.smoothQueue.count "A" ∧
      getSmoothedLabel sC8 = { label := some "A", conf := 0, stable := false } :=
  ⟨by decide, by decide⟩

/-- C6 (amended): the classifier's raw best label is the label whose score
entry comes first, in the insertion order of the score map (first
occurrence among the distance-sorted k nearest neighbours), among the
entries of maximal score: every earlier entry scores strictly less and
every later entry scores no more — so ties go to the earlier entry in
score-map order, not to the canonical A-to-Z order. -/
theorem c6_tiebreak_first_in_scores (M : MathFns)
    (ex : String → List (List ℚ)) (q : List ℚ) (l : String)
    (hbest : bestLabelOf M ex q = some l) :
    ∃ s pre post, scoresOf M ex q = pre ++ (l, s) :: post ∧
      (∀ e ∈ pre, e.2 < s) ∧ ∀ e ∈ post, e.2 ≤ s := by
  have hbf : (List.foldl scanStep (none, none, none, none)
      (scoresOf M ex q)).1 =
      Option.map Prod.fst (foldBest (scoresOf M ex q) none) :=
    (bestScan_foldBest (scoresOf M ex q) none none none).1
  rw [bestLabelOf, bestLabelFromScores, bestScan] at hbest
  rw [hbf] at hbest
  rcases hfold : foldBest (scoresOf M ex q) none with _ | pair
  · rw [hfold] at hbest
    simp at hbest
  · rw [hfold] at hbest
    simp only [Option.map_some', Option.some.injEq] at hbest
    rcases foldBest_spec (scoresOf M ex q) none with ⟨h1, _⟩ |
      ⟨l2, s2, pre, post, h1, h2, _, h4, h5⟩
    · rw [hfold] at h1
      simp at h1
    · rw [hfold] at h1
      injection h1 with h1
      have hp1 : pair.1 = l2 := by rw [h1]
      have hl : l2 = l := hp1.symm.trans hbest
      subst hl
      exact ⟨s2, pre, post, h2, h4, h5⟩

/-- C6 amended witness: the characterisation applied to the concrete tie
store exC6, whose raw best label is B. -/
theorem c6_tiebreak_first_in_scores_witness :
    bestLabelOf refFns exC6 vA = some "B" ∧
      ∃ s pre post, scoresOf refFns exC6 vA = pre ++ ("B", s) :: post ∧
        (∀ e ∈ pre, e.2 < s) ∧ ∀ e ∈ post, e.2 ≤ s :=
  ⟨by decide, c6_tiebreak_first_in_scores refFns exC6 vA "B" (by decide)⟩

/-- C6 counterexample: with one B example at the query and two A examples
at distance EPS, both labels accumulate exactly the score 1000000, yet
the classifier's chosen best label is B, although A comes first in the
canonical label order A-to-Z-then-NONE. -/
theorem c6_canonical_tiebreak_counterexample :
    scoresOf refFns exC6 vA = [("B", 1000000), ("A", 1000000)] ∧
      classifyKNN refFns exC6 vA =
        some { label := some NONE_LABEL, conf := 1/2, best := some "B",
               second := some "A",
               scores := [("B", 1000000), ("A", 1000000)] } ∧
      ALL_LABELS.indexOf "A" < ALL_LABELS.indexOf "B" :=
  ⟨by decide, by decide, by decide⟩

/-- C4: for a first hand with exactly 21 keypoints the extractor returns
a vector of exactly 42 values, the wrist-translated, scale-divided,
rotated x,y pairs in landmark order; a hand with any other keypoint count
(or no hand at all) yields none; and when the wrist coincides with the
reference joint, so that the square root is taken at 0, the guard
substitutes scale 1.  In this exact-rational model every produced value
is a rational number, hence finite by construction. -/
theorem c4_feature_shape (M : MathFns) (hand : Hand) (rest : List Hand) :
    (hand.keypoints.length = 21 →
      ∃ fv, getHandFeatures M (hand :: rest) = some fv ∧ fv.length = 42 ∧
        ∀ i : ℕ, i < 21 →
          fv.get? (2 * i) = some (featX M hand i) ∧
            fv.get? (2 * i + 1) = some (featY M hand i)) ∧
      (hand.keypoints.length ≠ 21 → getHandFeatures M (hand :: rest) = none) ∧
      getHandFeatures M [] = none ∧
      (featDx hand = 0 → featDy hand = 0 → M.msqrt 0 = 0 →
        featScale M hand = 1) := by
  refine ⟨?_, ?_, rfl, ?_⟩
  · intro h
    refine ⟨(List.range 21).flatMap fun i => [featX M hand i, featY M hand i],
      ?_, ?_, ?_⟩
    · simp only [getHandFeatures, if_pos h]
      rfl
    · rw [pairFlatMap_length]
    · intro i hi
      exact pairFlatMap_get 21 i _ _ hi
  · intro h
    simp only [getHandFeatures, if_neg h]
  · intro h1 h2 h3
    rw [featScale, h1, h2]
    simp [h3]

/-- C4 witness: the shape part at a concrete 21-keypoint hand, the absent
case at a 1-keypoint hand, and the degenerate-scale guard at a hand whose
keypoints all coincide. -/
theorem c4_feature_shape_witness :
    (∃ fv, getHandFeatures refFns [hand21] = some fv ∧ fv.length = 42 ∧
      ∀ i : ℕ, i < 21 →
        fv.get? (2 * i) = some (featX refFns hand21 i) ∧
          fv.get? (2 * i + 1) = some (featY refFns hand21 i)) ∧
      getHandFeatures refFns [handShort] = none ∧
      featScale refFns handDeg = 1 :=
  ⟨(c4_feature_shape refFns hand21 []).1 (by decide),
    (c4_feature_shape refFns handShort []).2.1 (by decide),
    (c4_feature_shape refFns handDeg []).2.2.2 (by decide) (by decide)
      (by decide)⟩
